import Mathlib

/-!
Verification of the RAR multi-volume naming-scheme resolver of the
`hoarder` repository (`src/hoarder/rar_path.py`), shallowly embedded in
Lean 4.  Filenames are modelled as `String`, Python `re` matches of the
two anchored volume-naming patterns as total functions on strings,
`ValueError`-raising code as `Except String`, and Python `set` values by
their insertion sequence together with an explicit model of CPython's
set iteration order (needed only for the error-message text).
-/

deriving instance DecidableEq for Except

namespace Hoarder

/-- `RarScheme` (an `IntEnum` in the source): `AMBIGUOUS = 0`,
`DOT_RNN = 3`, `PART_N = 5`. -/
inductive RarScheme where
  | AMBIGUOUS
  | DOT_RNN
  | PART_N
deriving DecidableEq, Repr

/-- The numeric values of the `IntEnum` members. -/
def RarScheme.val : RarScheme → Nat
  | .AMBIGUOUS => 0
  | .DOT_RNN => 3
  | .PART_N => 5

/-- `RARPath` named tuple: `(volume_index, path, stem, suffix)`, in the
source's field order (which is also Python's tuple-comparison order). -/
structure RARPath where
  volume_index : Int
  path : String
  stem : String
  suffix : String
deriving DecidableEq, Repr

/-- Result of a successful `PART_N_PAT.match`: captured groups `stem`
and `volume_index` (the `suffix` group of that pattern is always the
literal `"rar"`). -/
structure PartMatch where
  stem : String
  volume_index : Nat
deriving DecidableEq, Repr

/-- Result of a successful `DOT_RNN_PAT.match`: captured groups `stem`,
`suffix`, and the optional `volume_index` (absent when the `rar`
alternative matched). -/
structure RnnMatch where
  stem : String
  suffix : String
  volume_index : Option Nat
deriving DecidableEq, Repr

/-- Numeric value of a decimal-digit string, as Python `int()` parses the
`volume_index` capture (leading zeros allowed). -/
def natOfDigits (cs : List Char) : Nat :=
  cs.foldl (fun a c => 10 * a + (c.toNat - '0'.toNat)) 0

/-- A character the patterns' `.` can match: anything but a newline
(the source compiles its patterns without `re.DOTALL`). -/
def dotChar (c : Char) : Bool := c ≠ '\n'

/--
`DOT_RNN_PAT.match`, the legacy-scheme pattern
`^(?P<stem>.+)\.(?P<suffix>rar|r(?P<volume_index>\d\d))$`.

Both alternatives of the suffix occupy exactly the last four characters
(`.rar` or `.rNN`), so a match decomposes the string as a non-empty,
newline-free stem followed by those four characters; the `rar`
alternative is tried first, as in the source.  Digits are modelled as
ASCII digits (the source's `\d` also admits other Unicode decimal
digits, which no claim exercises).
-/
def dotRnnMatchChars (cs : List Char) : Option RnnMatch :=
  match cs.reverse with
  | 'r' :: 'a' :: 'r' :: '.' :: stemRev =>
    if stemRev ≠ [] ∧ stemRev.all dotChar then
      some ⟨⟨stemRev.reverse⟩, "rar", none⟩
    else none
  | d2 :: d1 :: 'r' :: '.' :: stemRev =>
    if d1.isDigit ∧ d2.isDigit ∧ stemRev ≠ [] ∧ stemRev.all dotChar then
      some ⟨⟨stemRev.reverse⟩, ⟨['r', d1, d2]⟩, some (natOfDigits [d1, d2])⟩
    else none
  | _ => none

/-- `DOT_RNN_PAT.match` on a string. -/
def dotRnnMatch (s : String) : Option RnnMatch :=
  dotRnnMatchChars s.data

/--
`PART_N_PAT.match`, the part-scheme pattern
`^(?P<stem>.+)\.part(?P<volume_index>\d+)\.rar$`.

A match must end in `.rar`; the `volume_index` digits are the maximal
digit run preceding it (the character before the digit run must be the
`t` of `.part`, so no shorter run can match), preceded by the literal
`.part` and a non-empty, newline-free stem — exactly the decomposition
the greedy `.+` produces.
-/
def partMatchChars (cs : List Char) : Option PartMatch :=
  match cs.reverse with
  | 'r' :: 'a' :: 'r' :: '.' :: rest =>
    match rest.takeWhile (·.isDigit), rest.dropWhile (·.isDigit) with
    | [], _ => none
    | digitsRev, 't' :: 'r' :: 'a' :: 'p' :: '.' :: stemRev =>
      if stemRev ≠ [] ∧ stemRev.all dotChar then
        some ⟨⟨stemRev.reverse⟩, natOfDigits digitsRev.reverse⟩
      else none
    | _, _ => none
  | _ => none

/-- `PART_N_PAT.match` on a string. -/
def partMatch (s : String) : Option PartMatch :=
  partMatchChars s.data

/-- `RARPath.from_match` applied to a `PART_N_PAT` match of `p`: the
`volume_index` group is present, the `suffix` group is `"rar"`, and
`match.string` is the input `p`. -/
def RARPath.ofPart (p : String) (m : PartMatch) : RARPath :=
  ⟨(m.volume_index : Int), p, m.stem, "rar"⟩

/-- `RARPath.from_match` applied to a `DOT_RNN_PAT` match of `p`:
`volume_index` is `-1` when the `volume_index` group is absent. -/
def RARPath.ofRnn (p : String) (m : RnnMatch) : RARPath :=
  ⟨match m.volume_index with
   | none => -1
   | some n => (n : Int), p, m.stem, m.suffix⟩

/-! ### Python `set` model

The source stores the observed volume indices in a Python `set`
(`actual = {match.volume_index for match in parsed}`), compares it with
`{1}`, subtracts a `range`-built `expected` set, and joins the
difference with `", "`.  Everything except the join depends only on set
*membership*; the join order is CPython's hash-table iteration order.
A set is embedded by its insertion sequence; iteration order is
modelled by `pySetOrder` below. -/

/-- The distinct elements of `l`, first occurrences first: the elements
of the Python set built by inserting `l` in order. -/
def dedupFirst (l : List Int) : List Int :=
  l.foldl (fun acc a => if a ∈ acc then acc else acc ++ [a]) []

/-- Python `set` equality: same membership. -/
def pySetEq (a b : List Int) : Bool :=
  a.all (· ∈ b) && b.all (· ∈ a)

/-- CPython's hash of a small integer: the integer itself, except
`hash(-1) = -2`. -/
def pyHash (i : Int) : Int :=
  if i = -1 then -2 else i

/-- The hash-table slot of `i` in CPython's initial 8-slot set table. -/
def pySlot (i : Int) : Int :=
  pyHash i % 8

/-- Models CPython's set iteration order: distinct elements in
hash-table slot order.  Exact for the sets this program's error paths
produce in the claims under proof (few distinct small integers, no two
sharing a slot, no table resize); for larger or colliding sets CPython's
probing and resizing can deviate, which no theorem below relies on. -/
def pySetOrder (l : List Int) : List Int :=
  List.insertionSort (fun a b => pySlot a ≤ pySlot b) (dedupFirst l)

/-- `", ".join(str(i) for i in s)` over a set visited in CPython
iteration order. -/
def joinPySet (l : List Int) : String :=
  ", ".intercalate ((pySetOrder l).map toString)

/-! ### `parse_rar_list` -/

/-- The stem-consistency loop: the first entry of `parsed[1:]` whose
`stem` differs from `parsed[0].stem` yields the `ValueError` message
`f"{rp} has an inconsistent stem"` (where `f"{rp}"` is `str(rp)`, i.e.
`rp.path`). -/
def stemError (parsed : List RARPath) : Option String :=
  match parsed with
  | [] => none
  | p0 :: rest =>
    (rest.find? (fun rp => rp.stem ≠ p0.stem)).map
      (fun rp => rp.path ++ " has an inconsistent stem")

/-- The legacy structural check and the completeness check, reached with
the final `scheme`, the parsed volumes, the actual-index set (as its
insertion sequence, already deduplicated) and `base`/`len(paths)`. -/
def legacyAndComplete (scheme : RarScheme) (parsed : List RARPath)
    (actual : List Int) (base : Int) (nPaths : Nat) :
    Except String (RarScheme × List RARPath) :=
  let nUnnumbered := parsed.countP (fun rp => rp.suffix = "rar")
  if scheme = .DOT_RNN ∧ nUnnumbered ≠ 1 then
    .error (toString nUnnumbered ++
      " paths have a non-indexed suffix; must be exactly one")
  else
    let expected := (List.range nPaths).map (fun i => base + (i : Int))
    let spurious := actual.filter (fun a => a ∉ expected)
    if spurious ≠ [] then
      .error ("The following indices are unexpected: " ++ joinPySet spurious)
    else
      let missing := expected.filter (fun e => e ∉ actual)
      if missing ≠ [] then
        .error ("The following indices are missing: " ++ joinPySet missing)
      else .ok (scheme, parsed)

/-- Stem check, actual-index set and scheme disambiguation (the `match
scheme:` statement), then the final checks. -/
def checkParsed (scheme : RarScheme) (parsed : List RARPath)
    (nPaths : Nat) : Except String (RarScheme × List RARPath) :=
  match stemError parsed with
  | some e => .error e
  | none =>
    let actual := dedupFirst (parsed.map (·.volume_index))
    match scheme with
    | .DOT_RNN => legacyAndComplete .DOT_RNN parsed actual (-1) nPaths
    | .PART_N => legacyAndComplete .PART_N parsed actual 1 nPaths
    | .AMBIGUOUS =>
      if pySetEq actual [1] then .ok (.AMBIGUOUS, parsed)
      else legacyAndComplete .DOT_RNN parsed [-1] (-1) nPaths

/-- The re-match of every input against `DOT_RNN_PAT` taken when some
input failed `PART_N_PAT`: the first non-matching path raises
`f'"{path}" does not match the scheme-3 pattern'`; otherwise every
match is turned into a `RARPath`. -/
def dotMatchAll : List String → Except String (List RARPath)
  | [] => .ok []
  | p :: ps =>
    match dotRnnMatch p with
    | none => .error ("\"" ++ p ++ "\" does not match the scheme-3 pattern")
    | some m => (dotMatchAll ps).map (RARPath.ofRnn p m :: ·)

/-- `parse_rar_list` (src/hoarder/rar_path.py). -/
def parse_rar_list (paths : List String) :
    Except String (RarScheme × List RARPath) :=
  if paths.isEmpty then .ok (.PART_N, [])
  else if paths.all (fun p => (partMatch p).isSome) then
    let parsed := paths.filterMap (fun p => (partMatch p).map (RARPath.ofPart p))
    let scheme : RarScheme := if paths.length > 1 then .PART_N else .AMBIGUOUS
    checkParsed scheme parsed paths.length
  else
    match dotMatchAll paths with
    | .error e => .error e
    | .ok parsed => checkParsed .DOT_RNN parsed paths.length

/-! ### Sorting (`sorted(parsed)` and `rar_sort`) -/

/-- Python's tuple comparison on `RARPath` values, field by field in
declaration order.  Ties are possible only between identical values, so
any sort with this relation coincides with Python's stable `sorted`. -/
def RARPath.Le (a b : RARPath) : Prop :=
  a.volume_index < b.volume_index ∨ (a.volume_index = b.volume_index ∧
    (a.path < b.path ∨ (a.path = b.path ∧
      (a.stem < b.stem ∨ (a.stem = b.stem ∧ a.suffix ≤ b.suffix)))))

instance : DecidableRel RARPath.Le := fun a b => by
  unfold RARPath.Le; infer_instance

/-- `sorted(parsed)`. -/
def sortRAR (parsed : List RARPath) : List RARPath :=
  List.insertionSort RARPath.Le parsed

/-- `rar_sort` (src/hoarder/rar_path.py): parse, then the sorted
volumes' `path` fields, paired with the scheme. -/
def rar_sort (paths : List String) : Except String (RarScheme × List String) :=
  (parse_rar_list paths).map (fun sp => (sp.1, (sortRAR sp.2).map (·.path)))

/-- The ordering the spec states for volumes: index ascending, ties
broken by the original path text. -/
def indexPathOrder (a b : RARPath) : Prop :=
  a.volume_index < b.volume_index ∨
    (a.volume_index = b.volume_index ∧ a.path ≤ b.path)

/-! ### `find_rar_files` -/

/-- Split a character list on `/` (like `str.split("/")`: `n` slashes
yield `n + 1` groups, empty groups included). -/
def splitSlash : List Char → List (List Char)
  | [] => [[]]
  | c :: cs =>
    if c = '/' then [] :: splitSlash cs
    else
      match splitSlash cs with
      | [] => [[c]]
      | g :: gs => (c :: g) :: gs

/-- `str(Path(s))` for a POSIX `PurePath`: drop empty and `.` path
components, keep a root of `/` (or the special `//`). -/
def pathNorm (s : String) : String :=
  let parts := (splitSlash s.data).filter (fun p => p ≠ [] && p ≠ ['.'])
  let root : String :=
    if s.data.take 2 = ['/', '/'] && !(s.data.take 3 = ['/', '/', '/']) then "//"
    else if s.data.take 1 = ['/'] then "/" else ""
  if root = "" && parts.isEmpty then "."
  else root ++ ⟨List.intercalate ['/'] parts⟩

/-- Python truthiness of the optional `seek_stem` argument: `None` and
`""` both disable the filter. -/
def seekActive : Option String → Option String
  | none => none
  | some t => if t = "" then none else some t

/-- The per-entry classification of `find_rar_files`' loop body: the
stem key under which a directory entry named `name` is grouped (`none`
when the entry is skipped).  `PART_N_PAT` is tried first; in its branch
the key is the `Path`-normalised part stem (compared against
`seek_stem` after normalisation), in the `DOT_RNN_PAT` branch
`seek_stem` is compared against the raw stem before normalisation, as
in the source. -/
def groupKey (seek : Option String) (name : String) : Option String :=
  match partMatch name with
  | some m =>
    let stem := pathNorm m.stem
    match seekActive seek with
    | some t => if stem ≠ t then none else some stem
    | none => some stem
  | none =>
    match dotRnnMatch name with
    | some m =>
      match seekActive seek with
      | some t => if t ≠ m.stem then none else some (pathNorm m.stem)
      | none => some (pathNorm m.stem)
    | none => none

/-- Append `p` to the group keyed `k` of the (insertion-ordered, as a
Python `dict`) group list, creating the group if absent. -/
def updateGroup : List (String × List String) → String → String →
    List (String × List String)
  | [], k, p => [(k, [p])]
  | (k', v) :: rest, k, p =>
    if k' = k then (k', v ++ [p]) :: rest
    else (k', v) :: updateGroup rest k p

/-- The `rar_dict` built by `find_rar_files`' loop over the directory
entries (modelled as the list of entry names in iteration order). -/
def buildGroups (seek : Option String) (entries : List String) :
    List (String × List String) :=
  entries.foldl
    (fun g name =>
      match groupKey seek name with
      | none => g
      | some k => updateGroup g k name) []

/-- `find_rar_files` (src/hoarder/rar_path.py): group the directory's
entry names by stem, then `rar_sort` each group; a `ValueError` from a
group propagates. -/
def find_rar_files (entries : List String) (seek : Option String) :
    Except String (List (String × RarScheme × List String)) :=
  (buildGroups seek entries).mapM
    (fun kv => (rar_sort kv.2).map (fun sv => (kv.1, sv)))

/-! ### Order infrastructure for `sorted` -/

/-- The comparison key of a `RARPath` as a lexicographic tuple. -/
def RARPath.key (r : RARPath) : Int ×ₗ (String ×ₗ (String ×ₗ String)) :=
  toLex (r.volume_index, toLex (r.path, toLex (r.stem, r.suffix)))

theorem RARPath.le_iff_key {a b : RARPath} :
    RARPath.Le a b ↔ RARPath.key a ≤ RARPath.key b := by
  simp [RARPath.Le, RARPath.key, Prod.Lex.le_iff]

theorem RARPath.key_inj {a b : RARPath} (h : RARPath.key a = RARPath.key b) :
    a = b := by
  cases a; cases b
  simpa [RARPath.key, toLex, Prod.ext_iff, RARPath.mk.injEq] using h

instance : IsTrans RARPath RARPath.Le :=
  ⟨fun _ _ _ hab hbc => RARPath.le_iff_key.mpr
    (le_trans (RARPath.le_iff_key.mp hab) (RARPath.le_iff_key.mp hbc))⟩

instance : IsTotal RARPath RARPath.Le :=
  ⟨fun a b => (le_total (RARPath.key a) (RARPath.key b)).imp
    RARPath.le_iff_key.mpr RARPath.le_iff_key.mpr⟩

instance : IsAntisymm RARPath RARPath.Le :=
  ⟨fun _ _ hab hba => RARPath.key_inj
    (le_antisymm (RARPath.le_iff_key.mp hab) (RARPath.le_iff_key.mp hba))⟩

theorem sortRAR_perm (l : List RARPath) : List.Perm (sortRAR l) l :=
  List.perm_insertionSort _ _

theorem sortRAR_sorted (l : List RARPath) :
    List.Sorted RARPath.Le (sortRAR l) :=
  List.sorted_insertionSort _ _

/-! ### Pattern lemmas -/

theorem isDigit_dotChar {c : Char} (h : c.isDigit = true) : dotChar c = true := by
  simp only [dotChar, ne_eq, decide_eq_true_eq]
  intro hc
  subst hc
  simp [Char.isDigit] at h

theorem partMatchChars_structure {cs : List Char} {m : PartMatch}
    (h : partMatchChars cs = some m) :
    ∃ rest, cs.reverse = 'r' :: 'a' :: 'r' :: '.' :: rest ∧ rest ≠ [] ∧
      rest.all dotChar = true ∧ m.stem.data.length < rest.length := by
  unfold partMatchChars at h
  split at h
  case h_2 => exact absurd h (by simp)
  case h_1 rest heq =>
    split at h
    case h_1 => exact absurd h (by simp)
    case h_3 => exact absurd h (by simp)
    case h_2 v1 v2 stemRev heqd heqt =>
      split at h
      case isFalse => exact absurd h (by simp)
      case isTrue hcond =>
        injection h with h
        refine ⟨rest, heq, ?_, ?_, ?_⟩
        · intro hr
          rw [hr] at heqd
          simp [List.dropWhile] at heqd
        · have hrw : rest =
              rest.takeWhile (fun c => c.isDigit) ++ rest.dropWhile (fun c => c.isDigit) :=
            (List.takeWhile_append_dropWhile _ _).symm
          rw [hrw, List.all_append, heqd, Bool.and_eq_true]
          refine And.intro ?_ ?_
          · rw [List.all_eq_true]
            intro c hc
            exact isDigit_dotChar (List.mem_takeWhile_imp hc)
          · simp only [List.all_cons, Bool.and_eq_true]
            exact ⟨by decide, by decide, by decide, by decide, by decide, hcond.2⟩
        · have hlen : rest.length =
              (rest.takeWhile (fun c => c.isDigit)).length +
              (rest.dropWhile (fun c => c.isDigit)).length := by
            conv_lhs => rw [(List.takeWhile_append_dropWhile
              (fun c : Char => c.isDigit) rest).symm]
            exact List.length_append _ _
          rw [heqd] at hlen
          have hstem : m.stem.data.length = stemRev.length := by
            rw [← h]
            simp
          simp only [List.length_cons] at hlen
          omega



theorem part_dot_overlap {s : String} {m : PartMatch}
    (h : partMatch s = some m) :
    ∃ m' : RnnMatch, dotRnnMatch s = some m' ∧ m'.suffix = "rar" ∧
      m'.volume_index = none ∧ m'.stem ≠ m.stem := by
  obtain ⟨rest, heq, hne, hall, hlen⟩ := partMatchChars_structure h
  refine ⟨⟨⟨rest.reverse⟩, "rar", none⟩, ?_, rfl, rfl, ?_⟩
  · unfold dotRnnMatch dotRnnMatchChars
    rw [heq]
    simp [hne, hall]
  · intro hcontra
    have hdata : rest.reverse = m.stem.data := congrArg String.data hcontra
    have : rest.reverse.length = m.stem.data.length := by rw [hdata]
    simp only [List.length_reverse] at this
    omega




/-! ### Parse lemmas and claim theorems -/

theorem parse_single_part_eq_one {p : String} {m : PartMatch}
    (h : partMatch p = some m) (h1 : m.volume_index = 1) :
    parse_rar_list [p] = .ok (.AMBIGUOUS, [RARPath.ofPart p m]) := by
  unfold parse_rar_list
  simp only [List.isEmpty_cons, List.all_cons, List.all_nil, h, Option.isSome_some,
    Bool.and_true, List.length_cons, List.length_nil, List.filterMap_cons,
    List.filterMap_nil, Option.map_some, if_false]
  norm_num
  unfold checkParsed stemError
  simp only [List.find?_nil, Option.map_none]
  simp [dedupFirst, pySetEq, RARPath.ofPart, h1]

theorem parse_single_part_ne_one {p : String} {m : PartMatch}
    (h : partMatch p = some m) (h1 : m.volume_index ≠ 1) :
    parse_rar_list [p] = .ok (.DOT_RNN, [RARPath.ofPart p m]) := by
  unfold parse_rar_list
  simp only [List.isEmpty_cons, List.all_cons, List.all_nil, h, Option.isSome_some,
    Bool.and_true, List.length_cons, List.length_nil, List.filterMap_cons,
    List.filterMap_nil, Option.map_some, if_false]
  norm_num
  unfold checkParsed stemError
  simp only [List.find?_nil, Option.map_none]
  have hne : pySetEq (dedupFirst ([RARPath.ofPart p m].map (·.volume_index))) [1] = false := by
    have hcast : (m.volume_index : Int) ≠ 1 := by exact_mod_cast h1
    simp [dedupFirst, pySetEq, RARPath.ofPart, hcast, Ne.symm hcast]
  simp only [hne]
  unfold legacyAndComplete
  simp [RARPath.ofPart, joinPySet]

theorem RARPath.le_imp_indexPathOrder {a b : RARPath} (h : RARPath.Le a b) :
    indexPathOrder a b := by
  rcases h with h | ⟨hidx, h⟩
  · exact Or.inl h
  · refine Or.inr ⟨hidx, ?_⟩
    rcases h with h | ⟨hpath, _⟩
    · exact le_of_lt h
    · exact le_of_eq hpath

/-- C1 (amended): a single-element input whose sole filename matches the
Part pattern with index exactly 1 is accepted and returned immediately,
with scheme component `AMBIGUOUS` (not `PART_N`). -/
theorem parse_single_part1_ambiguous (p : String) (m : PartMatch)
    (h : partMatch p = some m) (h1 : m.volume_index = 1) :
    parse_rar_list [p] = .ok (.AMBIGUOUS, [RARPath.ofPart p m]) :=
  parse_single_part_eq_one h h1

theorem parse_single_part1_ambiguous_witness :
    parse_rar_list ["c.part1.rar"] =
      .ok (.AMBIGUOUS, [RARPath.ofPart "c.part1.rar" ⟨"c", 1⟩]) :=
  parse_single_part1_ambiguous "c.part1.rar" ⟨"c", 1⟩ (by decide) rfl

/-- C1 counterexample: the claim says the returned scheme is `PART_N`,
but on `["a.part1.rar"]` the code returns `AMBIGUOUS`. -/
theorem parse_single_part1_not_partn :
    parse_rar_list ["a.part1.rar"] =
      .ok (.AMBIGUOUS, [⟨1, "a.part1.rar", "a", "rar"⟩]) ∧
    RarScheme.AMBIGUOUS ≠ RarScheme.PART_N := by
  constructor
  · decide
  · decide

/-- C2 (amended): a filename matched by the Part pattern is always also
matched by the Legacy pattern, via its unsuffixed `rar` alternative (no
index group); only the `rNN` alternative is disjoint from the Part
pattern. -/
theorem part_match_also_legacy (s : String) (m : PartMatch)
    (h : partMatch s = some m) :
    (∃ m' : RnnMatch, dotRnnMatch s = some m' ∧ m'.suffix = "rar" ∧
      m'.volume_index = none) ∧
    (∀ m' : RnnMatch, dotRnnMatch s = some m' → m'.volume_index = none) := by
  obtain ⟨m', hm', hsuf, hvol, _⟩ := part_dot_overlap h
  refine ⟨⟨m', hm', hsuf, hvol⟩, ?_⟩
  intro m'' hm''
  rw [hm'] at hm''
  injection hm'' with hm''
  rw [← hm'']
  exact hvol

theorem part_match_also_legacy_witness :
    (∃ m' : RnnMatch, dotRnnMatch "b.part7.rar" = some m' ∧
      m'.suffix = "rar" ∧ m'.volume_index = none) ∧
    (∀ m' : RnnMatch, dotRnnMatch "b.part7.rar" = some m' →
      m'.volume_index = none) :=
  part_match_also_legacy "b.part7.rar" ⟨"b", 7⟩ (by decide)

/-- C2 counterexample: `"a.part1.rar"` is matched by both grammars, so
the claimed universal disjointness fails. -/
theorem part_and_legacy_both_match :
    (partMatch "a.part1.rar").isSome = true ∧
    (dotRnnMatch "a.part1.rar").isSome = true := by
  constructor
  · decide
  · decide

/-- C3: a single-element input whose sole filename matches the Part
pattern with index ≠ 1 does not raise: it is reinterpreted as
`DOT_RNN` and the one parsed volume is returned. -/
theorem parse_single_partN_legacy (p : String) (m : PartMatch)
    (h : partMatch p = some m) (h1 : m.volume_index ≠ 1) :
    parse_rar_list [p] = .ok (.DOT_RNN, [RARPath.ofPart p m]) :=
  parse_single_part_ne_one h h1

theorem parse_single_partN_legacy_witness :
    parse_rar_list ["a.part2.rar"] =
      .ok (.DOT_RNN, [RARPath.ofPart "a.part2.rar" ⟨"a", 2⟩]) :=
  parse_single_partN_legacy "a.part2.rar" ⟨"a", 2⟩ (by decide) (by decide)

/-- C9: under the legacy reinterpretation of a lone `partN` file the
returned volume still carries `volume_index = N` (never rewritten to the
sentinel `-1`); only the internal actual-index set is replaced. -/
theorem reinterpreted_volume_keeps_index (p : String) (m : PartMatch)
    (h : partMatch p = some m) (h1 : m.volume_index ≠ 1) :
    ∃ ps, parse_rar_list [p] = .ok (.DOT_RNN, ps) ∧
      ps.map (·.volume_index) = [(m.volume_index : Int)] ∧
      (m.volume_index : Int) ≠ -1 := by
  refine ⟨[RARPath.ofPart p m], parse_single_part_ne_one h h1, ?_, ?_⟩
  · simp [RARPath.ofPart]
  · have := Int.natCast_nonneg m.volume_index
    omega

theorem reinterpreted_volume_keeps_index_witness :
    ∃ ps, parse_rar_list ["b.part3.rar"] = .ok (.DOT_RNN, ps) ∧
      ps.map (·.volume_index) = [((⟨"b", 3⟩ : PartMatch).volume_index : Int)] ∧
      ((⟨"b", 3⟩ : PartMatch).volume_index : Int) ≠ -1 :=
  reinterpreted_volume_keeps_index "b.part3.rar" ⟨"b", 3⟩ (by decide) (by decide)

/-- C8: at an input failing both patterns the code's message reads
`scheme-3`, not the `version-3` wording the claim (and the repository's
own test suite) requires. -/
theorem legacy_mismatch_message_wording :
    parse_rar_list [""] =
      .error "\"\" does not match the scheme-3 pattern" ∧
    "\"\" does not match the scheme-3 pattern" ≠
      "\"\" does not match the version-3 pattern" := by
  constructor
  · decide
  · decide

/-- C10: `find_rar_files` tries the Part pattern first, every
Part-matching name also matches the Legacy pattern via its `rar`
alternative (with a different stem), and such a name is grouped under
its (normalised) Part-pattern stem whenever it is grouped at all. -/
theorem find_groups_under_part_stem (seek : Option String) (name : String)
    (m : PartMatch) (h : partMatch name = some m) :
    (∃ m' : RnnMatch, dotRnnMatch name = some m' ∧ m'.suffix = "rar" ∧
      m'.stem ≠ m.stem) ∧
    (groupKey seek name = none ∨ groupKey seek name = some (pathNorm m.stem)) ∧
    find_rar_files ["a.part1.rar"] none =
      .ok [("a", (.AMBIGUOUS, ["a.part1.rar"]))] := by
  refine ⟨?_, ?_, by decide⟩
  · obtain ⟨m', hm', hsuf, _, hstem⟩ := part_dot_overlap h
    exact ⟨m', hm', hsuf, hstem⟩
  · unfold groupKey
    rw [h]
    cases hs : seekActive seek with
    | none => exact Or.inr rfl
    | some t =>
      by_cases ht : pathNorm m.stem ≠ t
      · simp [ht]
      · simp [ht]

theorem find_groups_under_part_stem_witness :
    (∃ m' : RnnMatch, dotRnnMatch "d.part1.rar" = some m' ∧
      m'.suffix = "rar" ∧ m'.stem ≠ (⟨"d", 1⟩ : PartMatch).stem) ∧
    (groupKey none "d.part1.rar" = none ∨
      groupKey none "d.part1.rar" = some (pathNorm (⟨"d", 1⟩ : PartMatch).stem)) ∧
    find_rar_files ["a.part1.rar"] none =
      .ok [("a", (.AMBIGUOUS, ["a.part1.rar"]))] :=
  find_groups_under_part_stem none "d.part1.rar" ⟨"d", 1⟩ (by decide)

/-- C4: the two concrete sort examples from the spec, and in general the
sorted volume list of a successful parse is ordered by index ascending
with ties broken by the original path text. -/
theorem rar_sort_ordering :
    (rar_sort ["a.r00", "a.rar", "a.r01"] =
      .ok (.DOT_RNN, ["a.rar", "a.r00", "a.r01"])) ∧
    (rar_sort ["a.part2.rar", "a.part1.rar"] =
      .ok (.PART_N, ["a.part1.rar", "a.part2.rar"])) ∧
    ∀ l sch ps, parse_rar_list l = .ok (sch, ps) →
      rar_sort l = .ok (sch, (sortRAR ps).map (·.path)) ∧
      List.Chain' indexPathOrder (sortRAR ps) := by
  refine ⟨by decide, by decide, ?_⟩
  intro l sch ps h
  refine ⟨by simp [rar_sort, h, Except.map], ?_⟩
  exact ((sortRAR_sorted ps).imp RARPath.le_imp_indexPathOrder).chain'

theorem rar_sort_ordering_witness :
    rar_sort ["b.r00", "b.rar"] =
      .ok (.DOT_RNN, (sortRAR [⟨0, "b.r00", "b", "r00"⟩,
        ⟨-1, "b.rar", "b", "rar"⟩]).map (·.path)) ∧
    List.Chain' indexPathOrder
      (sortRAR [⟨0, "b.r00", "b", "r00"⟩, ⟨-1, "b.rar", "b", "rar"⟩]) :=
  rar_sort_ordering.2.2 ["b.r00", "b.rar"] .DOT_RNN
    [⟨0, "b.r00", "b", "r00"⟩, ⟨-1, "b.rar", "b", "rar"⟩] (by decide)

theorem string_append_ne_of_head (c d : Char) {s t u v : String}
    (hc : s.data.head? = some c) (hd : t.data.head? = some d)
    (hcd : c ≠ d) : s ++ u ≠ t ++ v := by
  intro h
  have hdata : (s ++ u).data = (t ++ v).data := congrArg String.data h
  rw [String.data_append, String.data_append] at hdata
  cases hs : s.data with
  | nil => rw [hs] at hc; simp at hc
  | cons c' cs =>
    cases ht : t.data with
    | nil => rw [ht] at hd; simp at hd
    | cons d' ds =>
      rw [hs] at hc
      rw [ht] at hd
      rw [hs, ht] at hdata
      simp only [List.head?_cons, Option.some.injEq] at hc hd
      simp only [List.cons_append, List.cons.injEq] at hdata
      exact hcd (hc ▸ hd ▸ hdata.1)

theorem parse_dot_branch {paths : List String} {parsed : List RARPath}
    (hne : paths ≠ [])
    (hfail : paths.all (fun p => (partMatch p).isSome) = false)
    (hdot : dotMatchAll paths = .ok parsed) :
    parse_rar_list paths = checkParsed .DOT_RNN parsed paths.length := by
  have hempty : paths.isEmpty = false := by
    cases paths with
    | nil => exact absurd rfl hne
    | cons a l => rfl
  unfold parse_rar_list
  rw [hempty, hfail, hdot]
  simp only [Bool.false_eq_true, if_false]

theorem checkParsed_dotrnn {parsed : List RARPath} {nPaths : Nat}
    (hstem : stemError parsed = none) :
    checkParsed .DOT_RNN parsed nPaths =
      legacyAndComplete .DOT_RNN parsed
        (dedupFirst (parsed.map (·.volume_index))) (-1) nPaths := by
  unfold checkParsed
  rw [hstem]

theorem legacyAndComplete_bad_count {parsed : List RARPath}
    {actual : List Int} {base : Int} {nPaths : Nat}
    (h : parsed.countP (fun rp => rp.suffix = "rar") ≠ 1) :
    legacyAndComplete .DOT_RNN parsed actual base nPaths =
      .error (toString (parsed.countP (fun rp => rp.suffix = "rar")) ++
        " paths have a non-indexed suffix; must be exactly one") := by
  unfold legacyAndComplete
  rw [if_pos ⟨rfl, h⟩]

theorem legacyAndComplete_past_count {scheme : RarScheme}
    {parsed : List RARPath} {actual : List Int} {base : Int} {nPaths : Nat}
    (h : ¬(scheme = .DOT_RNN ∧
      parsed.countP (fun rp => rp.suffix = "rar") ≠ 1)) :
    legacyAndComplete scheme parsed actual base nPaths =
      (if actual.filter (fun a =>
            a ∉ (List.range nPaths).map (fun i => base + (i : Int))) ≠ [] then
        .error ("The following indices are unexpected: " ++
          joinPySet (actual.filter (fun a =>
            a ∉ (List.range nPaths).map (fun i => base + (i : Int)))))
      else if ((List.range nPaths).map (fun i => base + (i : Int))).filter
            (fun e => e ∉ actual) ≠ [] then
        .error ("The following indices are missing: " ++
          joinPySet (((List.range nPaths).map (fun i => base + (i : Int))).filter
            (fun e => e ∉ actual)))
      else .ok (scheme, parsed)) := by
  unfold legacyAndComplete
  rw [if_neg h]

/-- C6: when the final scheme is `DOT_RNN` via the legacy re-match
branch (some input failed the Part pattern, all matched the Legacy
pattern, stems consistent), `parse_rar_list` produces the exact error
`"<count> paths have a non-indexed suffix; must be exactly one"` if and
only if the number of inputs whose matched suffix is the unsuffixed
`rar` differs from one. -/
theorem legacy_nonindexed_suffix_check (paths : List String)
    (parsed : List RARPath)
    (hne : paths ≠ [])
    (hfail : paths.all (fun p => (partMatch p).isSome) = false)
    (hdot : dotMatchAll paths = .ok parsed)
    (hstem : stemError parsed = none) :
    (parse_rar_list paths =
      .error (toString (parsed.countP (fun rp => rp.suffix = "rar")) ++
        " paths have a non-indexed suffix; must be exactly one")) ↔
    parsed.countP (fun rp => rp.suffix = "rar") ≠ 1 := by
  rw [parse_dot_branch hne hfail hdot, checkParsed_dotrnn hstem]
  by_cases hcnt : parsed.countP (fun rp => rp.suffix = "rar") = 1
  · rw [legacyAndComplete_past_count (by simp [hcnt])]
    constructor
    · intro habs
      split at habs
      · rw [hcnt] at habs
        exact absurd (Except.error.inj habs)
          (string_append_ne_of_head 'T' '1' rfl rfl (by decide))
      · split at habs
        · rw [hcnt] at habs
          exact absurd (Except.error.inj habs)
            (string_append_ne_of_head 'T' '1' rfl rfl (by decide))
        · exact Except.noConfusion habs
    · intro habs
      exact absurd hcnt habs
  · rw [legacyAndComplete_bad_count hcnt]
    exact ⟨fun _ => hcnt, fun _ => rfl⟩

theorem legacy_nonindexed_suffix_check_witness :
    parse_rar_list ["a.rar", "a.rar"] =
      .error "2 paths have a non-indexed suffix; must be exactly one" := by
  have h := (legacy_nonindexed_suffix_check ["a.rar", "a.rar"]
    [⟨-1, "a.rar", "a", "rar"⟩, ⟨-1, "a.rar", "a", "rar"⟩]
    (by decide) (by decide) (by decide) (by decide)).mpr (by decide)
  exact h.trans (congrArg Except.error (by decide))

theorem string_append_ne_of_take (n : Nat) {s t : String} (u v : String)
    (hs : n ≤ s.data.length) (ht : n ≤ t.data.length)
    (hne : s.data.take n ≠ t.data.take n) : s ++ u ≠ t ++ v := by
  intro h
  have hdata : (s ++ u).data = (t ++ v).data := congrArg String.data h
  rw [String.data_append, String.data_append] at hdata
  have htake := congrArg (List.take n) hdata
  rw [List.take_append_of_le_length hs, List.take_append_of_le_length ht] at htake
  exact hne htake

/-- C7 (amended): on reaching the completeness check, a non-empty
spurious set is reported (before the missing check is considered), and a
missing-indices error can arise only when the spurious set is empty; the
indices in the message appear in the Python set's iteration order, which
is not in general ascending (e.g. spurious `{9, 3}` prints `"9, 3"`). -/
theorem spurious_checked_before_missing (scheme : RarScheme)
    (parsed : List RARPath) (actual : List Int) (base : Int) (nPaths : Nat)
    (hgate : ¬(scheme = .DOT_RNN ∧
      parsed.countP (fun rp => rp.suffix = "rar") ≠ 1)) :
    (actual.filter (fun a =>
        a ∉ (List.range nPaths).map (fun i => base + (i : Int))) ≠ [] →
      legacyAndComplete scheme parsed actual base nPaths =
        .error ("The following indices are unexpected: " ++
          joinPySet (actual.filter (fun a =>
            a ∉ (List.range nPaths).map (fun i => base + (i : Int)))))) ∧
    (∀ msg, legacyAndComplete scheme parsed actual base nPaths =
        .error ("The following indices are missing: " ++ msg) →
      actual.filter (fun a =>
        a ∉ (List.range nPaths).map (fun i => base + (i : Int))) = []) ∧
    parse_rar_list ["b.rar", "b.r09", "b.r03"] =
      .error "The following indices are unexpected: 9, 3" := by
  rw [legacyAndComplete_past_count hgate]
  refine ⟨?_, ?_, by decide⟩
  · intro hsp
    rw [if_pos hsp]
  · intro msg h
    by_contra hsp
    rw [if_pos hsp] at h
    exact absurd (Except.error.inj h)
      (string_append_ne_of_take 27 _ _ (by decide) (by decide) (by decide))

theorem spurious_checked_before_missing_witness :
    legacyAndComplete .PART_N [] [2] 1 1 =
      .error ("The following indices are unexpected: " ++
        joinPySet ([(2 : Int)].filter (fun a =>
          a ∉ (List.range 1).map (fun i => (1 : Int) + (i : Int))))) :=
  (spurious_checked_before_missing .PART_N [] [2] 1 1 (by decide)).1 (by decide)

/-- C7 counterexample: the produced spurious message lists `8` before
`2`, so the indices are not in ascending sorted order as claimed. -/
theorem spurious_message_not_ascending :
    parse_rar_list ["a.rar", "a.r08", "a.r02"] =
      .error "The following indices are unexpected: 8, 2" ∧
    ¬((8 : Int) ≤ 2) := by
  exact ⟨by decide, by decide⟩


/-! ### Permutation invariance -/

theorem mem_dedupFirst {a : Int} {l : List Int} : a ∈ dedupFirst l ↔ a ∈ l := by
  suffices h : ∀ acc : List Int,
      (a ∈ l.foldl (fun acc a => if a ∈ acc then acc else acc ++ [a]) acc ↔
        a ∈ acc ∨ a ∈ l) by
    simpa [dedupFirst] using h []
  induction l with
  | nil => intro acc; simp
  | cons x xs ih =>
    intro acc
    rw [List.foldl_cons]
    by_cases hx : x ∈ acc
    · rw [if_pos hx, ih acc]
      constructor
      · rintro (h | h)
        · exact Or.inl h
        · exact Or.inr (List.mem_cons_of_mem _ h)
      · rintro (h | h)
        · exact Or.inl h
        · rcases List.mem_cons.mp h with rfl | h
          · exact Or.inl hx
          · exact Or.inr h
    · rw [if_neg hx, ih (acc ++ [x])]
      simp only [List.mem_append, List.mem_singleton, List.mem_cons]
      tauto

theorem perm_all_eq {α : Type} {l l' : List α} {f : α → Bool}
    (hperm : l.Perm l') : l.all f = l'.all f := by
  rw [Bool.eq_iff_iff]
  simp only [List.all_eq_true]
  exact ⟨fun h x hx => h x (hperm.mem_iff.mpr hx),
    fun h x hx => h x (hperm.mem_iff.mp hx)⟩

theorem pySetEq_eq_of_mem_iff {a a' b : List Int}
    (h : ∀ x, x ∈ a ↔ x ∈ a') : pySetEq a b = pySetEq a' b := by
  unfold pySetEq
  have h1 : (a.all fun x => x ∈ b) = (a'.all fun x => x ∈ b) := by
    rw [Bool.eq_iff_iff]
    simp only [List.all_eq_true, decide_eq_true_eq]
    exact ⟨fun hv x hx => hv x ((h x).mpr hx), fun hv x hx => hv x ((h x).mp hx)⟩
  have h2 : (b.all fun x => x ∈ a) = (b.all fun x => x ∈ a') := by
    rw [Bool.eq_iff_iff]
    simp only [List.all_eq_true, decide_eq_true_eq]
    exact ⟨fun hv x hx => (h x).mp (hv x hx), fun hv x hx => (h x).mpr (hv x hx)⟩
  rw [h1, h2]

theorem stemError_none_iff {ps : List RARPath} :
    stemError ps = none ↔ ∀ x ∈ ps, ∀ y ∈ ps, x.stem = y.stem := by
  cases ps with
  | nil => simp [stemError]
  | cons p0 rest =>
    simp only [stemError, Option.map_eq_none', List.find?_eq_none,
      decide_eq_true_eq, ne_eq, Decidable.not_not]
    constructor
    · intro h x hx y hy
      have hall : ∀ z ∈ p0 :: rest, z.stem = p0.stem := by
        intro z hz
        rcases List.mem_cons.mp hz with rfl | hz
        · rfl
        · exact h z hz
      rw [hall x hx, hall y hy]
    · intro h z hz
      exact h z (List.mem_cons_of_mem _ hz) p0 (List.mem_cons_self _ _)

theorem legacyAndComplete_ok_transfer {scheme : RarScheme}
    {parsed parsed' : List RARPath} {actual actual' : List Int}
    {base : Int} {nPaths : Nat} {out : RarScheme × List RARPath}
    (hcnt : parsed.countP (fun rp => rp.suffix = "rar") =
      parsed'.countP (fun rp => rp.suffix = "rar"))
    (hmem : ∀ x, x ∈ actual ↔ x ∈ actual')
    (h : legacyAndComplete scheme parsed actual base nPaths = .ok out) :
    legacyAndComplete scheme parsed' actual' base nPaths =
      .ok (out.1, parsed') ∧ out = (scheme, parsed) := by
  unfold legacyAndComplete at h ⊢
  by_cases hgate : scheme = .DOT_RNN ∧
      parsed.countP (fun rp => rp.suffix = "rar") ≠ 1
  · rw [if_pos hgate] at h
    exact absurd h (by simp)
  · rw [if_neg hgate] at h
    rw [if_neg (by rw [← hcnt]; exact hgate)]
    by_cases hsp : actual.filter (fun a =>
        a ∉ (List.range nPaths).map (fun i => base + (i : Int))) ≠ []
    · rw [if_pos hsp] at h
      exact absurd h (by simp)
    · rw [if_neg hsp] at h
      have hspl : ∀ a ∈ actual,
          a ∈ (List.range nPaths).map (fun i => base + (i : Int)) := by
        rw [Decidable.not_not] at hsp
        intro a ha
        have := List.filter_eq_nil_iff.mp hsp a ha
        simpa only [decide_eq_true_eq, Decidable.not_not] using this
      have hsp' : ¬ actual'.filter (fun a =>
          a ∉ (List.range nPaths).map (fun i => base + (i : Int))) ≠ [] := by
        rw [Decidable.not_not]
        rw [List.filter_eq_nil_iff]
        intro a ha
        simpa only [decide_eq_true_eq, Decidable.not_not] using hspl a ((hmem a).mpr ha)
      rw [if_neg hsp']
      have hmiss : ((List.range nPaths).map (fun i => base + (i : Int))).filter
            (fun e => e ∉ actual) =
          ((List.range nPaths).map (fun i => base + (i : Int))).filter
            (fun e => e ∉ actual') := by
        apply List.filter_congr
        intro x _
        simp only [decide_eq_decide]
        rw [hmem x]
      rw [← hmiss]
      by_cases hms : ((List.range nPaths).map (fun i => base + (i : Int))).filter
          (fun e => e ∉ actual) ≠ []
      · rw [if_pos hms] at h
        exact absurd h (by simp)
      · rw [if_neg hms] at h
        rw [if_neg hms]
        have hout : out = (scheme, parsed) := (Except.ok.inj h).symm
        exact ⟨by rw [hout], hout⟩

theorem checkParsed_ok_transfer {scheme : RarScheme}
    {parsed parsed' : List RARPath} {nPaths : Nat}
    {out : RarScheme × List RARPath}
    (hp : parsed.Perm parsed')
    (h : checkParsed scheme parsed nPaths = .ok out) :
    checkParsed scheme parsed' nPaths = .ok (out.1, parsed') ∧
      out.2 = parsed := by
  unfold checkParsed at h ⊢
  cases hse : stemError parsed with
  | some e =>
    rw [hse] at h
    exact absurd h (by simp)
  | none =>
    rw [hse] at h
    have hse' : stemError parsed' = none := by
      rw [stemError_none_iff]
      intro x hx y hy
      exact stemError_none_iff.mp hse x (hp.mem_iff.mpr hx) y (hp.mem_iff.mpr hy)
    rw [hse']
    dsimp only at h ⊢
    have hmem : ∀ x, x ∈ dedupFirst (parsed.map (·.volume_index)) ↔
        x ∈ dedupFirst (parsed'.map (·.volume_index)) := by
      intro x
      rw [mem_dedupFirst, mem_dedupFirst,
        (hp.map (·.volume_index)).mem_iff]
    have hcnt : parsed.countP (fun rp => rp.suffix = "rar") =
        parsed'.countP (fun rp => rp.suffix = "rar") :=
      hp.countP_eq _
    cases scheme with
    | DOT_RNN =>
      have := legacyAndComplete_ok_transfer hcnt hmem h
      exact ⟨this.1, congrArg Prod.snd this.2⟩
    | PART_N =>
      have := legacyAndComplete_ok_transfer hcnt hmem h
      exact ⟨this.1, congrArg Prod.snd this.2⟩
    | AMBIGUOUS =>
      have hps : pySetEq (dedupFirst (parsed.map (·.volume_index))) [1] =
          pySetEq (dedupFirst (parsed'.map (·.volume_index))) [1] :=
        pySetEq_eq_of_mem_iff hmem
      by_cases hval : pySetEq (dedupFirst (parsed.map (·.volume_index))) [1] = true
      · rw [if_pos hval] at h
        rw [if_pos (hps ▸ hval)]
        have hout : out = (.AMBIGUOUS, parsed) := (Except.ok.inj h).symm
        exact ⟨by rw [hout], by rw [hout]⟩
      · rw [if_neg hval] at h
        rw [if_neg (hps ▸ hval)]
        have := legacyAndComplete_ok_transfer hcnt (fun x => Iff.rfl) h
        exact ⟨this.1, congrArg Prod.snd this.2⟩

theorem dotMatchAll_ok {l : List String} {ps : List RARPath}
    (h : dotMatchAll l = .ok ps) :
    (∀ p ∈ l, (dotRnnMatch p).isSome) ∧
      ps = l.filterMap (fun p => (dotRnnMatch p).map (RARPath.ofRnn p)) := by
  induction l generalizing ps with
  | nil =>
    simp only [dotMatchAll] at h
    simp [← Except.ok.inj h]
  | cons p rest ih =>
    simp only [dotMatchAll] at h
    cases hm : dotRnnMatch p with
    | none =>
      rw [hm] at h
      exact absurd h (by simp)
    | some m =>
      rw [hm] at h
      cases hrest : dotMatchAll rest with
      | error e =>
        rw [hrest] at h
        exact absurd h (by simp [Except.map])
      | ok ps' =>
        rw [hrest] at h
        obtain ⟨hall, hps'⟩ := ih hrest
        simp only [Except.map] at h
        refine ⟨?_, ?_⟩
        · intro q hq
          rcases List.mem_cons.mp hq with rfl | hq
          · simp [hm]
          · exact hall q hq
        · rw [← Except.ok.inj h, List.filterMap_cons, hm]
          simp [hps']

theorem dotMatchAll_ok_of_all {l : List String}
    (h : ∀ p ∈ l, (dotRnnMatch p).isSome) :
    dotMatchAll l =
      .ok (l.filterMap (fun p => (dotRnnMatch p).map (RARPath.ofRnn p))) := by
  induction l with
  | nil => simp [dotMatchAll]
  | cons p rest ih =>
    simp only [dotMatchAll]
    cases hm : dotRnnMatch p with
    | none =>
      have := h p (List.mem_cons_self _ _)
      rw [hm] at this
      exact absurd this (by simp)
    | some m =>
      rw [ih (fun q hq => h q (List.mem_cons_of_mem _ hq))]
      simp [Except.map, List.filterMap_cons, hm]

theorem parse_ok_perm {l l' : List String} {out : RarScheme × List RARPath}
    (hperm : l.Perm l') (h : parse_rar_list l = .ok out) :
    ∃ ps', parse_rar_list l' = .ok (out.1, ps') ∧ out.2.Perm ps' := by
  by_cases hnil : l = []
  · subst hnil
    have : l' = [] := hperm.nil_eq.symm
    subst this
    simp only [parse_rar_list, List.isEmpty_nil, if_true] at h ⊢
    refine ⟨[], ?_, ?_⟩
    · rw [← Except.ok.inj h]
    · rw [← Except.ok.inj h]
  · have hnil' : l' ≠ [] := by
      intro hcon
      subst hcon
      exact hnil hperm.eq_nil
    have hempty : l.isEmpty = false := by
      cases l with
      | nil => exact absurd rfl hnil
      | cons a t => rfl
    have hempty' : l'.isEmpty = false := by
      cases l' with
      | nil => exact absurd rfl hnil'
      | cons a t => rfl
    have halleq : l.all (fun p => (partMatch p).isSome) =
        l'.all (fun p => (partMatch p).isSome) := perm_all_eq hperm
    unfold parse_rar_list at h ⊢
    rw [hempty] at h
    rw [hempty', ← halleq, hperm.length_eq.symm]
    simp only [Bool.false_eq_true, if_false] at h ⊢
    cases hall : l.all (fun p => (partMatch p).isSome) with
    | true =>
      rw [hall] at h
      simp only [if_true] at h ⊢
      have hpm : (l.filterMap (fun p => (partMatch p).map (RARPath.ofPart p))).Perm
          (l'.filterMap (fun p => (partMatch p).map (RARPath.ofPart p))) :=
        hperm.filterMap _
      obtain ⟨hck, hout2⟩ := checkParsed_ok_transfer hpm h
      refine ⟨l'.filterMap (fun p => (partMatch p).map (RARPath.ofPart p)), hck, ?_⟩
      rw [hout2]
      exact hpm
    | false =>
      rw [hall] at h
      simp only [Bool.false_eq_true, if_false] at h ⊢
      cases hdl : dotMatchAll l with
      | error e =>
        rw [hdl] at h
        exact absurd h (by simp)
      | ok psl =>
        rw [hdl] at h
        obtain ⟨hsome, hpsl⟩ := dotMatchAll_ok hdl
        have hsome' : ∀ p ∈ l', (dotRnnMatch p).isSome :=
          fun p hp => hsome p (hperm.mem_iff.mpr hp)
        rw [dotMatchAll_ok_of_all hsome']
        have hpm : psl.Perm
            (l'.filterMap (fun p => (dotRnnMatch p).map (RARPath.ofRnn p))) := by
          rw [hpsl]
          exact hperm.filterMap _
        obtain ⟨hck, hout2⟩ := checkParsed_ok_transfer hpm h
        refine ⟨_, hck, ?_⟩
        rw [hout2]
        exact hpm

/-- C5: permuting the input never changes a successful result of
`rar_sort`: the resolved scheme and the final sorted volume order are
input-order independent. -/
theorem rar_sort_perm_invariant (l l' : List String)
    (hperm : l.Perm l') (out : RarScheme × List String)
    (h : rar_sort l = .ok out) : rar_sort l' = .ok out := by
  unfold rar_sort at h ⊢
  cases hp : parse_rar_list l with
  | error e =>
    rw [hp] at h
    exact absurd h (by simp [Except.map])
  | ok sp =>
    rw [hp] at h
    simp only [Except.map] at h
    obtain ⟨ps', hps', hperm2⟩ := parse_ok_perm hperm hp
    rw [hps']
    simp only [Except.map]
    have hsort : sortRAR sp.2 = sortRAR ps' :=
      List.eq_of_perm_of_sorted
        ((sortRAR_perm _).trans (hperm2.trans (sortRAR_perm _).symm))
        (sortRAR_sorted _) (sortRAR_sorted _)
    rw [← h, hsort]

theorem rar_sort_perm_invariant_witness :
    rar_sort ["w.r00", "w.rar"] = .ok (.DOT_RNN, ["w.rar", "w.r00"]) :=
  rar_sort_perm_invariant ["w.rar", "w.r00"] ["w.r00", "w.rar"]
    (List.Perm.swap "w.r00" "w.rar" []) (.DOT_RNN, ["w.rar", "w.r00"])
    (by decide)

end Hoarder
